import Mathlib

/-!
Shallow embedding of the `ippy` IPv4 pattern library.

The Go sources are embedded one function at a time:
* `internal/lexer/lexer.go`   : the tokenizer (`Lexer.NextToken` and helpers);
* `internal/token/token.go`   : the token data type;
* `internal/parser/parser.go` : the recursive-descent interval parser;
* `internal/bitsvector/bitsvector.go` : the 256-bit octet set;
* `internal/ip/ip.go`         : the literal dotted-decimal address parser;
* `pkg/ipexpr/ipexpr.go`      : compile / match / generate of full patterns.

Go strings are modelled as `List Char`; Go state (lexer cursor, parser
lookahead, counters) is threaded explicitly.  Machine bytes are `Nat`s kept
below 256 by the same `% 256` / `≤ 255` checks the source performs.
-/

namespace Ippy

/-! ### internal/token/token.go -/

/-- Token kinds, mirroring the string constants EOF, ILLEGAL, NUMBER, DASH,
ASTERISK, COMMA of `token.go`. -/
inductive TokenType where
  | eof
  | illegal
  | number
  | dash
  | asterisk
  | comma
deriving DecidableEq, Repr

/-- The textual name of a token type, as used inside parser diagnostics
(Go token types literally are these strings). -/
def TokenType.str : TokenType → String
  | .eof => "EOF"
  | .illegal => "ILLEGAL"
  | .number => "NUMBER"
  | .dash => "DASH"
  | .asterisk => "ASTERISK"
  | .comma => "COMMA"

/-- `token.Token`: a kind together with the literal text. -/
structure Token where
  type : TokenType
  literal : List Char
deriving DecidableEq, Repr

/-! ### internal/lexer/lexer.go

The Go lexer keeps a cursor into the input string; its observable state is
the not-yet-consumed suffix, so `NextToken` becomes a function from the
remaining input to a token plus the new remaining input.  Note that the Go
code turns the sentinel byte `nul` (0) into an EOF token even when it occurs
in the middle of the input. -/

/-- `isDigit` of `lexer.go`. -/
def isDigit (c : Char) : Bool := '0' ≤ c && c ≤ '9'

/-- The `nul` sentinel byte of `lexer.go`. -/
def nul : Char := Char.ofNat 0

/-- `Lexer.skipWhiteSpaces`: drop leading literal spaces. -/
def skipWhiteSpaces : List Char → List Char
  | [] => []
  | c :: rest => if c = ' ' then skipWhiteSpaces rest else c :: rest

/-- `Lexer.readNumber`: split off the maximal leading run of ASCII digits. -/
def readNumber : List Char → List Char × List Char
  | [] => ([], [])
  | c :: rest =>
    if isDigit c then
      let p := readNumber rest
      (c :: p.1, p.2)
    else ([], c :: rest)

/-- The switch of `Lexer.NextToken`, for a non-exhausted input starting at
`c`: single-character tokens, the NUL sentinel (an EOF token), digit runs,
and ILLEGAL for anything else. -/
def scanToken (c : Char) (rest : List Char) : Token × List Char :=
  if c = '-' then (⟨.dash, [c]⟩, rest)
  else if c = '*' then (⟨.asterisk, [c]⟩, rest)
  else if c = ',' then (⟨.comma, [c]⟩, rest)
  else if c = nul then (⟨.eof, []⟩, rest)
  else if isDigit c then
    let p := readNumber (c :: rest)
    (⟨.number, p.1⟩, p.2)
  else (⟨.illegal, [c]⟩, rest)

/-- `Lexer.NextToken`: skip spaces, then scan one token; returns the token
and the remaining input. -/
def nextToken (s : List Char) : Token × List Char :=
  match skipWhiteSpaces s with
  | [] => (⟨.eof, []⟩, [])
  | c :: rest => scanToken c rest

/-- One lexer step: the remaining input after `NextToken`. -/
def lexAdvance (s : List Char) : List Char := (nextToken s).2

/-! ### internal/bitsvector/bitsvector.go

`OctetBits` is Go's `[32]byte`, modelled as a 32-element list of byte
values. -/

def OctetBits := List Nat
deriving DecidableEq, Repr

/-- The `AllSet` constant: 32 bytes of `0xFF`. -/
def AllSet : OctetBits := List.replicate 32 255

/-- The zero value `OctetBits{}`: 32 bytes of `0`. -/
def emptyBits : OctetBits := List.replicate 32 0

/-- `OctetBits.set`: `o[n/8] |= 1 << (n%8)`. -/
def bitsSet (ob : OctetBits) (n : Nat) : OctetBits :=
  List.set ob (n / 8) ((List.getD ob (n / 8) 0) ||| (1 <<< (n % 8)))

/-- `OctetBits.Test`: `o[n/8] & (1 << (n%8)) != 0`. -/
def bitsTest (ob : OctetBits) (n : Nat) : Bool :=
  (List.getD ob (n / 8) 0) &&& (1 <<< (n % 8)) != 0

/-- An interval is Go's `parser.Interval`, a `[2]byte` pair. -/
def Interval := Nat × Nat
deriving DecidableEq, Repr

/-- The inner loop of `bitsvector.New`: set every value of a list. -/
def setAll (ob : OctetBits) : List Nat → OctetBits
  | [] => ob
  | n :: rest => setAll (bitsSet ob n) rest

/-- The non-special-case body of `bitsvector.New`: starting from `ob`, for
every interval `(start, stop)` set all bits `i` with `start ≤ i ≤ stop`
(the Go loop `for i := start; i <= end; i++`). -/
def buildBits (ob : OctetBits) : List Interval → OctetBits
  | [] => ob
  | it :: rest => buildBits (setAll ob (List.range' it.1 (it.2 + 1 - it.1))) rest

/-- The guard of the fast path of `bitsvector.New`:
`len(its) == 1 && its[0][0] == its[0][1] && its[0][0] == 255`. -/
def isAllSentinel : List Interval → Bool
  | [it] => it.1 == it.2 && it.1 == 255
  | _ => false

/-- `bitsvector.New`. -/
def bitsNew (its : List Interval) : OctetBits :=
  if isAllSentinel its then AllSet else buildBits emptyBits its

/-! ### internal/parser/parser.go

The Go `Parser` holds the lexer, two lookahead tokens and an error list; it
is threaded here as an explicit state value.  Diagnostic strings are
reproduced verbatim. -/

/-- The mutable fields of `parser.Parser`: remaining lexer input, the two
lookahead tokens and the accumulated diagnostics. -/
structure PState where
  rest : List Char
  curr : Token
  peek : Token
  errors : List String
deriving DecidableEq, Repr

/-- `Parser.nextToken`: shift the lookahead window by one lexer token. -/
def pNextToken (p : PState) : PState :=
  let r := nextToken p.rest
  { p with curr := p.peek, peek := r.1, rest := r.2 }

/-- `Parser.currError`: append the
`"expected current token type is …, found …"` diagnostic. -/
def currError (t : TokenType) (p : PState) : PState :=
  { p with errors := p.errors ++
      ["expected current token type is " ++ t.str ++ ", found " ++ p.curr.type.str] }

/-- `Parser.expectCurrIs`: advance when the current token has the expected
type, otherwise record a diagnostic and stay put. -/
def expectCurrIs (t : TokenType) (p : PState) : Bool × PState :=
  if p.curr.type = t then (true, pNextToken p) else (false, currError t p)

/-- `Parser.numberParsingError`: append the
`"numeric value … is not valid"` diagnostic. -/
def numberParsingError (p : PState) : PState :=
  { p with errors := p.errors ++
      ["numeric value " ++ String.mk p.curr.literal ++ " is not valid"] }

/-- The decimal value of a digit run, accumulated left to right. -/
def digitsToNat (cs : List Char) : Nat :=
  cs.foldl (fun acc c => acc * 10 + (c.toNat - 48)) 0

/-- `strconv.Atoi`, restricted to the literals the lexer can attach to a
NUMBER token (runs of ASCII digits): succeeds on a non-empty all-digit
string with its decimal value, fails otherwise. -/
def atoi (cs : List Char) : Option Nat :=
  if cs ≠ [] ∧ cs.all isDigit then some (digitsToNat cs) else none

/-- `Parser.parseNumber`: the current token must be a NUMBER whose literal
is an integer in `[0, 255]`. -/
def parseNumber (p : PState) : Option Nat × PState :=
  if p.curr.type = .number then
    match atoi p.curr.literal with
    | some num => if num ≤ 255 then (some num, pNextToken p) else (none, numberParsingError p)
    | none => (none, numberParsingError p)
  else (none, currError .number p)

/-- `Parser.parseTerm`:
`'*'` gives `{0,255}`, `NUMBER` gives `{n,n}`, `NUMBER '-' NUMBER` gives
`{start, end}` (no `start ≤ end` check).  On a number failure the enclosing
code appends a second `numberParsingError`, exactly as the Go body does. -/
def parseTerm (p : PState) : Option Interval × PState :=
  if p.curr.type = .asterisk then
    (some ((0 : Nat), (255 : Nat)), pNextToken p)
  else
    match parseNumber p with
    | (none, p1) => (none, numberParsingError p1)
    | (some start, p1) =>
      if p1.curr.type ≠ .dash then (some (start, start), p1)
      else
        let p2 := pNextToken p1
        match parseNumber p2 with
        | (none, p3) => (none, numberParsingError p3)
        | (some stop, p3) => (some (start, stop), p3)

/-- The loop of `Parser.parseExpr`: while the current token is not EOF,
parse a term; on failure drop everything; after a term, if the peek token
is not EOF demand a comma (recording, but not acting on, a failure).
`fuel` bounds the iteration count; every successful iteration consumes at
least one token, so any fuel above the token count is enough. -/
def parseExprLoop : Nat → PState → (List Interval × Bool) × PState
  | 0, p => (([], false), p)
  | fuel + 1, p =>
    if p.curr.type = .eof then (([], true), p)
    else
      match parseTerm p with
      | (none, p1) => (([], false), p1)
      | (some it, p1) =>
        let p2 := if p1.peek.type ≠ .eof then (expectCurrIs .comma p1).2 else p1
        match parseExprLoop fuel p2 with
        | ((its, true), p3) => ((it :: its, true), p3)
        | ((_, false), p3) => (([], false), p3)

/-- `Parser.Parse`: run `parseExpr`, then reject an empty interval list with
the `"a valid octet should have at least 1 range"` diagnostic. -/
def runParse (fuel : Nat) (p : PState) : (List Interval × Bool) × PState :=
  match parseExprLoop fuel p with
  | ((_, false), p1) => (([], false), p1)
  | ((its, true), p1) =>
    if its.length = 0 then
      (([], false), { p1 with errors := p1.errors ++ ["a valid octet should have at least 1 range"] })
    else ((its, true), p1)

/-- `parser.New`: fresh lexer plus two `nextToken` calls, so that `curr`
and `peek` hold the first two tokens. -/
def newPState (s : List Char) : PState :=
  let r1 := nextToken s
  let r2 := nextToken r1.2
  { rest := r2.2, curr := r1.1, peek := r2.1, errors := [] }

/-- `parser.New(s).Parse()`.  The fuel `s.length + 2` exceeds the number of
tokens the input can produce, so the loop always runs to its Go exit. -/
def parserParse (s : List Char) : (List Interval × Bool) × PState :=
  runParse (s.length + 2) (newPState s)

/-! ### internal/ip/ip.go -/

/-- `strings.Split(s, ".")`: the `.`-separated components, empty components
included; the empty string splits into `[""]`. -/
def splitOnDot : List Char → List (List Char)
  | [] => [[]]
  | c :: rest =>
    if c = '.' then [] :: splitOnDot rest
    else
      match splitOnDot rest with
      | [] => [[c]]
      | p :: ps => (c :: p) :: ps

/-- `strconv.ParseUint(s, 10, 8)`: a non-empty run of ASCII digits whose
value fits in a byte; the Go error value is abstracted to `none`. -/
def parseUint8 (cs : List Char) : Option Nat :=
  if cs ≠ [] ∧ cs.all isDigit then
    if digitsToNat cs ≤ 255 then some (digitsToNat cs) else none
  else none

/-- The per-component loop of `ip.Parse`: parse every component, aborting
on the first failure. -/
def parseUintAll : List (List Char) → Option (List Nat)
  | [] => some []
  | cs :: rest =>
    match parseUint8 cs with
    | none => none
    | some n =>
      match parseUintAll rest with
      | none => none
      | some ns => some (n :: ns)

/-- `ip.Parse`: split on `.`, demand exactly four components, parse each as
a byte.  The result is the four octet values (Go wraps them in a
`net.IP`); errors are abstracted to `none`. -/
def ipParse (s : List Char) : Option (List Nat) :=
  if (splitOnDot s).length = 4 then parseUintAll (splitOnDot s) else none

/-! ### pkg/ipexpr/ipexpr.go -/

/-- `IPExpr`: the four compiled octet sets (Go `[4]bitsvector.OctetBits`,
index 0 the most significant octet). -/
def IPExpr := List OctetBits
deriving DecidableEq, Repr

/-- `parseOctet`: run the interval parser on one component and compile the
intervals; a failed parse becomes the `"invalid octet format in …"`
error. -/
def parseOctet (o : List Char) : Except String OctetBits :=
  match parserParse o with
  | ((its, true), _) => .ok (bitsNew its)
  | ((_, false), _) => .error ("invalid octet format in " ++ String.mk o)

/-- The per-component loop of `ipexpr.Parse`: compile every component,
aborting on the first failure. -/
def parseOctetAll : List (List Char) → Except String (List OctetBits)
  | [] => .ok []
  | o :: rest =>
    match parseOctet o with
    | .error e => .error e
    | .ok bv =>
      match parseOctetAll rest with
      | .error e => .error e
      | .ok bvs => .ok (bv :: bvs)

/-- `ipexpr.Parse`: split the pattern on `.`, demand exactly four
components, compile each octet expression. -/
def ipexprParse (s : List Char) : Except String IPExpr :=
  if (splitOnDot s).length = 4 then parseOctetAll (splitOnDot s)
  else .error ("invalid ip expression: " ++ String.mk s)

/-- The membership loop of `IPExpr.Matches`: test each parsed octet against
the corresponding octet set, returning false at the first non-member. -/
def matchesBytes : List OctetBits → List Nat → Bool
  | ob :: obs, x :: xs => if bitsTest ob x then matchesBytes obs xs else false
  | _, _ => true

/-- `IPExpr.Matches`: parse the literal address (propagating its error,
abstracted to `none`), then test all four octets. -/
def ipMatches (ie : IPExpr) (s : List Char) : Option Bool :=
  match ipParse s with
  | none => none
  | some octs => some (matchesBytes ie octs)

/-- The innermost loop of `IPExpr.Generate`: repeatedly step
`c := (c+1) % 256` (noting a wrap to 0 as a carry) until the octet set
accepts `c`.  The Go loop is unbounded; 256 steps visit every candidate
value, and with an empty octet set the Go code would not terminate (that
point is unreachable, because the outer loop never runs). -/
def advanceOctet (ob : OctetBits) : Nat → Nat → Bool → Nat × Bool
  | 0, c, carry => (c, carry)
  | fuel + 1, c, carry =>
    let c1 := (c + 1) % 256
    let carry1 := carry || decide (c1 = 0)
    if bitsTest ob c1 then (c1, carry1) else advanceOctet ob fuel c1 carry1

/-- The odometer step of `IPExpr.Generate` (`for i := range 4` with
`counter[3-i]`): advance the least significant octet, then propagate into
more significant octets while a carry occurred. -/
def advanceCounter (ie : IPExpr) (cnt : List Nat) : List Nat :=
  let r3 := advanceOctet (ie.getD 3 emptyBits) 256 (cnt.getD 3 0) false
  let cnt3 := cnt.set 3 r3.1
  if !r3.2 then cnt3 else
  let r2 := advanceOctet (ie.getD 2 emptyBits) 256 (cnt3.getD 2 0) false
  let cnt2 := cnt3.set 2 r2.1
  if !r2.2 then cnt2 else
  let r1 := advanceOctet (ie.getD 1 emptyBits) 256 (cnt2.getD 1 0) false
  let cnt1 := cnt2.set 1 r1.1
  if !r1.2 then cnt1 else
  let r0 := advanceOctet (ie.getD 0 emptyBits) 256 (cnt1.getD 0 0) false
  cnt1.set 0 r0.1

/-- The loop condition of `IPExpr.Generate`:
`counter[0] != 0 && counter[1] != 0 && counter[2] != 0 && counter[3] != 0`. -/
def genCond (cnt : List Nat) : Bool :=
  cnt.getD 0 0 != 0 && cnt.getD 1 0 != 0 && cnt.getD 2 0 != 0 && cnt.getD 3 0 != 0

/-- The yield loop of `IPExpr.Generate`: while the condition holds, emit
the current counter (the address `net.IPv4(counter…)`) and advance the
odometer.  `fuel` bounds the iteration count. -/
def generateLoop (ie : IPExpr) : Nat → List Nat → List (List Nat)
  | 0, _ => []
  | fuel + 1, cnt =>
    if genCond cnt then cnt :: generateLoop ie fuel (advanceCounter ie cnt) else []

/-- `IPExpr.Generate`, collecting every yielded address: the counter starts
at `[4]int{}` (all zeros); the fuel covers every possible counter state. -/
def generate (ie : IPExpr) : List (List Nat) :=
  generateLoop ie (256 ^ 4 + 1) [0, 0, 0, 0]

/-- Convenience: the character list of a string literal. -/
def chars (s : String) : List Char := s.data

/-- Modelled from the spec: a well-formed literal address has exactly four
`.`-separated components, each a non-empty run of decimal digits whose
value is at most 255 ("wrong component count, non-numeric, or out-of-range
octet" are the malformations C6 names).  Stated independently of
`ip.Parse` so that the error behaviour of `Matches` can be compared
against it. -/
def wellFormedAddr (s : List Char) : Prop :=
  (splitOnDot s).length = 4 ∧
    ∀ p ∈ splitOnDot s, p ≠ [] ∧ p.all isDigit = true ∧ digitsToNat p ≤ 255

/-! ### Correctness of the octet set -/

theorem bitsSet_length (ob : OctetBits) (n : Nat) :
    (bitsSet ob n).length = ob.length := List.length_set ob _ _

theorem bitsTest_eq_testBit (ob : OctetBits) (n : Nat) :
    bitsTest ob n = (List.getD ob (n / 8) 0).testBit (n % 8) := by
  unfold bitsTest
  rw [Nat.shiftLeft_eq, one_mul, Nat.and_two_pow]
  have h2 : (2 : Nat) ^ (n % 8) ≠ 0 :=
    Nat.pos_iff_ne_zero.mp (Nat.pos_pow_of_pos _ (by norm_num))
  cases h : (List.getD ob (n / 8) 0).testBit (n % 8) <;> simp [h, h2]

theorem getD_set_self (l : List Nat) (j v : Nat) (hj : j < l.length) :
    List.getD (List.set l j v) j 0 = v := by
  rw [List.getD_eq_getElem?_getD, List.getElem?_set_eq_of_lt v hj]
  rfl

theorem getD_set_other (l : List Nat) (i j v : Nat) (hij : j ≠ i) :
    List.getD (List.set l j v) i 0 = List.getD l i 0 := by
  rw [List.getD_eq_getElem?_getD, List.getElem?_set_ne hij, ← List.getD_eq_getElem?_getD]

theorem bitsTest_bitsSet (ob : OctetBits) (hlen : List.length ob = 32)
    (m n : Nat) (hn : n < 256) :
    (bitsTest (bitsSet ob m) n = true ↔ n = m ∨ bitsTest ob n = true) := by
  by_cases hm : 256 ≤ m
  · have hset : bitsSet ob m = ob := by
      unfold bitsSet
      exact List.set_eq_of_length_le (by omega)
    rw [hset]
    constructor
    · exact Or.inr
    · rintro (rfl | h)
      · omega
      · exact h
  · push_neg at hm
    unfold bitsSet
    rw [bitsTest_eq_testBit, bitsTest_eq_testBit]
    by_cases hidx : n / 8 = m / 8
    · rw [hidx, getD_set_self ob (m / 8) _ (by omega)]
      rw [Nat.shiftLeft_eq, one_mul, Nat.testBit_or, Nat.testBit_two_pow]
      have heq : (n = m) ↔ (m % 8 = n % 8) := by omega
      cases h : (List.getD ob (m / 8) 0).testBit (n % 8) <;>
        simp [h, heq]
    · rw [getD_set_other ob (n / 8) (m / 8) _ (Ne.symm hidx)]
      have : n ≠ m := by omega
      simp [this]

theorem setAll_length (ob : OctetBits) (l : List Nat) :
    (setAll ob l).length = ob.length := by
  induction l generalizing ob with
  | nil => rfl
  | cons a rest ih => rw [setAll, ih, bitsSet_length]

theorem bitsTest_setAll (ob : OctetBits) (hlen : List.length ob = 32)
    (l : List Nat) (n : Nat) (hn : n < 256) :
    (bitsTest (setAll ob l) n = true ↔ n ∈ l ∨ bitsTest ob n = true) := by
  induction l generalizing ob with
  | nil => simp [setAll]
  | cons a rest ih =>
    rw [setAll, ih (bitsSet ob a) (by rw [bitsSet_length]; exact hlen),
      bitsTest_bitsSet ob hlen a n hn]
    simp only [List.mem_cons]
    tauto

theorem buildBits_length (ob : OctetBits) (its : List Interval) :
    (buildBits ob its).length = ob.length := by
  induction its generalizing ob with
  | nil => rfl
  | cons it rest ih => rw [buildBits, ih, setAll_length]

theorem bitsTest_buildBits (ob : OctetBits) (hlen : List.length ob = 32)
    (its : List Interval) (n : Nat) (hn : n < 256) :
    (bitsTest (buildBits ob its) n = true ↔
      (∃ it ∈ its, it.1 ≤ n ∧ n ≤ it.2) ∨ bitsTest ob n = true) := by
  induction its generalizing ob with
  | nil => simp [buildBits]
  | cons it rest ih =>
    rw [buildBits, ih _ (by rw [setAll_length]; exact hlen),
      bitsTest_setAll ob hlen _ n hn, List.mem_range'_1]
    constructor
    · rintro (⟨p, hp, h1, h2⟩ | h | h)
      · exact Or.inl ⟨p, List.mem_cons_of_mem _ hp, h1, h2⟩
      · exact Or.inl ⟨it, List.mem_cons_self _ _, h.1, by omega⟩
      · exact Or.inr h
    · rintro (⟨p, hp, h1, h2⟩ | h)
      · rcases List.mem_cons.mp hp with rfl | hp
        · exact Or.inr (Or.inl ⟨h1, by omega⟩)
        · exact Or.inl ⟨p, hp, h1, h2⟩
      · exact Or.inr (Or.inr h)

theorem bitsTest_empty (n : Nat) : bitsTest emptyBits n = false := by
  rw [bitsTest_eq_testBit]
  have : List.getD emptyBits (n / 8) 0 = 0 := by
    rw [emptyBits, List.getD_eq_getElem?_getD, List.getElem?_replicate]
    split <;> rfl
  rw [this]
  exact Nat.zero_testBit _

theorem bitsTest_allSet (n : Nat) (hn : n < 256) : bitsTest AllSet n = true := by
  rw [bitsTest_eq_testBit]
  have h1 : List.getD AllSet (n / 8) 0 = 255 := by
    rw [AllSet, List.getD_eq_getElem?_getD, List.getElem?_replicate, if_pos (by omega)]
    rfl
  rw [h1]
  have h8 : n % 8 < 8 := Nat.mod_lt _ (by norm_num)
  interval_cases h : n % 8 <;> decide

theorem isAllSentinel_iff (its : List Interval) :
    isAllSentinel its = true ↔ its = [((255 : Nat), (255 : Nat))] := by
  match its with
  | [] => simp [isAllSentinel]
  | [it] =>
    rcases it with ⟨a, b⟩
    simp only [isAllSentinel, beq_iff_eq, Bool.and_eq_true, List.cons.injEq, and_true]
    constructor
    · rintro ⟨rfl, rfl⟩; rfl
    · intro h
      have h1 : a = 255 := congrArg Prod.fst h
      have h2 : b = 255 := congrArg Prod.snd h
      omega
  | _ :: _ :: _ => simp [isAllSentinel]

/-- Membership in the compiled octet set, outside the `{255,255}` sentinel
fast path: a byte tests true exactly when some interval covers it. -/
theorem bitsNew_mem (its : List Interval) (n : Nat) (hn : n < 256)
    (hs : its ≠ [((255 : Nat), (255 : Nat))]) :
    (bitsTest (bitsNew its) n = true ↔ ∃ it ∈ its, it.1 ≤ n ∧ n ≤ it.2) := by
  have hguard : isAllSentinel its = false := by
    rcases h : isAllSentinel its with _ | _
    · rfl
    · exact absurd ((isAllSentinel_iff its).mp h) hs
  rw [bitsNew, hguard]
  simp only [Bool.false_eq_true, if_false]
  rw [bitsTest_buildBits emptyBits (by rfl) its n hn, bitsTest_empty]
  simp

/-! ### Claims -/

/-- C3: if the interval list is exactly `[{255,255}]`, `New` returns the
precomputed all-bits-set constant, whose `Test` is true on all 256 byte
values; for every other interval list the result is built by setting the
bits of each interval `[low, high]` with `low ≤ high` starting from
all-zero, so a byte tests true exactly when some interval covers it. -/
theorem C3_allset_special_case :
    (bitsNew [((255 : Nat), (255 : Nat))] = AllSet)
    ∧ (∀ v : Nat, v < 256 → bitsTest (bitsNew [((255 : Nat), (255 : Nat))]) v = true)
    ∧ (∀ its : List Interval, its ≠ [((255 : Nat), (255 : Nat))] →
        bitsNew its = buildBits emptyBits its
        ∧ ∀ v : Nat, v < 256 →
          (bitsTest (bitsNew its) v = true ↔ ∃ it ∈ its, it.1 ≤ v ∧ v ≤ it.2)) := by
  refine ⟨rfl, ?_, ?_⟩
  · intro v hv
    exact bitsTest_allSet v hv
  · intro its hs
    have hguard : isAllSentinel its = false := by
      rcases h : isAllSentinel its with _ | _
      · rfl
      · exact absurd ((isAllSentinel_iff its).mp h) hs
    constructor
    · rw [bitsNew, hguard]
      simp
    · intro v hv
      exact bitsNew_mem its v hv hs

theorem C3_allset_special_case_witness :
    bitsTest (bitsNew [((1 : Nat), (2 : Nat))]) 1 = true :=
  ((C3_allset_special_case.2.2 [((1 : Nat), (2 : Nat))] (by decide)).2 1 (by decide)).mpr
    (by decide)

/-- C2 as stated is false: the input `"255"` is accepted by the interval
parser with the single interval `{255,255}`, yet the octet set built from
it tests true at `0`, a byte covered by none of the parsed intervals
(the `AllSet` fast path fires). -/
theorem C2_counterexample :
    ((parserParse (chars ("255"))).1 = ([((255 : Nat), (255 : Nat))], true))
    ∧ bitsTest (bitsNew [((255 : Nat), (255 : Nat))]) 0 = true
    ∧ ¬ (∃ it ∈ [((255 : Nat), (255 : Nat))], it.1 ≤ 0 ∧ 0 ≤ it.2) := by
  refine ⟨by decide, by decide, ?_⟩
  rintro ⟨p, hp, h1, h2⟩
  obtain rfl := List.mem_singleton.mp hp
  have h1' : (255 : Nat) ≤ 0 := h1
  omega

/-- C2 amended: for every octet-expression accepted by the interval parser
whose parsed interval list is not exactly the `{255,255}` sentinel, the
built octet set tests true exactly on the bytes covered by some parsed
interval (when the list is exactly `[{255,255}]`, `Test` is instead true
on all 256 values). -/
theorem C2_amended_test_iff_covered (s : List Char) (its : List Interval) (q : PState)
    (_hparse : parserParse s = ((its, true), q))
    (hs : its ≠ [((255 : Nat), (255 : Nat))]) (v : Nat) (hv : v < 256) :
    (bitsTest (bitsNew its) v = true ↔ ∃ it ∈ its, it.1 ≤ v ∧ v ≤ it.2) :=
  bitsNew_mem its v hv hs

theorem C2_amended_test_iff_covered_witness :
    bitsTest (bitsNew [((1 : Nat), (5 : Nat))]) 3 = true :=
  (C2_amended_test_iff_covered (chars ("1-5")) [((1 : Nat), (5 : Nat))]
      (parserParse (chars ("1-5"))).2 rfl (by decide) 3 (by decide)).mpr (by decide)

/-- C4: a `NUMBER '-' NUMBER` term parses successfully to the interval
`{start, end}` with no `start ≤ end` check, and for a reversed pair
(`end < start`) the octet set built from that single interval tests false
on all 256 byte values. -/
theorem C4_reversed_range :
    (∀ (p : PState) (l1 l2 : List Char) (a b : Nat),
      p.curr = ⟨.number, l1⟩ → atoi l1 = some a → a ≤ 255 →
      p.peek.type = .dash →
      (nextToken p.rest).1 = ⟨.number, l2⟩ → atoi l2 = some b → b ≤ 255 →
      (parseTerm p).1 = some (a, b))
    ∧ (∀ a b : Nat, b < a → ∀ v : Nat, v < 256 →
        bitsTest (bitsNew [(a, b)]) v = false) := by
  constructor
  · intro p l1 l2 a b hcurr ha ha255 hpeek hnext hb hb255
    obtain ⟨rest, curr, peek, errs⟩ := p
    simp only at hcurr hpeek hnext
    subst hcurr
    simp only [parseTerm, parseNumber, pNextToken, ha, ha255, hpeek, hnext, hb, hb255]
    simp [hpeek, hnext, hb, hb255]
  · intro a b hba v hv
    have hs : [((a : Nat), (b : Nat))] ≠ [((255 : Nat), (255 : Nat))] := by
      intro h
      injection h with h1 _
      have ha : a = 255 := congrArg Prod.fst h1
      have hb : b = 255 := congrArg Prod.snd h1
      omega
    rcases hT : bitsTest (bitsNew [(a, b)]) v with _ | _
    · rfl
    · exfalso
      obtain ⟨p, hp, h1, h2⟩ := (bitsNew_mem _ v hv hs).mp hT
      obtain rfl := List.mem_singleton.mp hp
      have h1' : a ≤ v := h1
      have h2' : v ≤ b := h2
      omega

theorem C4_reversed_range_witness :
    ((parseTerm (newPState (chars ("5-3")))).1 = some ((5 : Nat), (3 : Nat)))
    ∧ bitsTest (bitsNew [((5 : Nat), (3 : Nat))]) 4 = false :=
  ⟨C4_reversed_range.1 (newPState (chars ("5-3"))) ['5'] ['3'] 5 3 (by decide)
      (by decide) (by decide) (by decide) (by decide) (by decide) (by decide),
    C4_reversed_range.2 5 3 (by decide) 4 (by decide)⟩

theorem generateLoop_from_zero (ie : IPExpr) (fuel : Nat) :
    generateLoop ie fuel [0, 0, 0, 0] = [] := by
  cases fuel with
  | zero => rfl
  | succ f => rw [generateLoop]; rfl

/-- C8: for every compiled pattern, `Generate` yields no elements: the loop
guard requires all four counters to be nonzero, but they start at zero. -/
theorem C8_generate_yields_nothing (ie : IPExpr) : generate ie = [] :=
  generateLoop_from_zero ie _

/-- C1 fails on the code: the pattern `"10.0.1,3,5.1"` compiles, each of
`10.0.1.1`, `10.0.3.1`, `10.0.5.1` matches it, yet `Generate` enumerates
the empty sequence (its loop guard is never satisfied), so it does not
enumerate every matching address. -/
theorem C1_generate_misses_matches :
    (ipexprParse (chars ("10.0.1,3,5.1"))).map
      (fun ie => (generate ie,
        [ipMatches ie (chars ("10.0.1.1")), ipMatches ie (chars ("10.0.3.1")),
          ipMatches ie (chars ("10.0.5.1"))])) =
    .ok ([], [some true, some true, some true]) := by
  rfl

/-- C9: inputs that violate the grammar `expr := term (',' term)*` by
juxtaposing two terms with no comma — `"1 2"` and `"1*"` — still parse
successfully with both terms' intervals; and a failed comma expectation
(as in `"1 2 3"`) records a diagnostic without aborting, so `Parse` can
return success while the diagnostics list is non-empty. -/
theorem C9_missing_comma_accepted :
    ((parserParse (chars ("1 2"))).1 = ([((1 : Nat), (1 : Nat)), ((2 : Nat), (2 : Nat))], true))
    ∧ ((parserParse (chars ("1*"))).1 = ([((1 : Nat), (1 : Nat)), ((0 : Nat), (255 : Nat))], true))
    ∧ ((parserParse (chars ("1 2 3"))).1 =
        ([((1 : Nat), (1 : Nat)), ((2 : Nat), (2 : Nat)), ((3 : Nat), (3 : Nat))], true))
    ∧ ((parserParse (chars ("1 2 3"))).2.errors =
        ["expected current token type is COMMA, found NUMBER"]) := by
  exact ⟨by decide, by decide, by decide, by decide⟩

/-! Lexer facts for C7. -/

theorem nul_not_mem_skipWhiteSpaces (s : List Char) (h : nul ∉ s) :
    nul ∉ skipWhiteSpaces s := by
  induction s with
  | nil => simp [skipWhiteSpaces]
  | cons c rest ih =>
    rw [skipWhiteSpaces]
    by_cases hc : c = ' '
    · rw [if_pos hc]
      exact ih (fun hm => h (List.mem_cons_of_mem _ hm))
    · rw [if_neg hc]
      exact h

/-- A lexer that returns EOF from a NUL-free input has consumed all of it. -/
theorem nextToken_eof_rest (s : List Char) (h : nul ∉ s)
    (he : (nextToken s).1.type = .eof) : (nextToken s).2 = [] := by
  have hsk : nul ∉ skipWhiteSpaces s := nul_not_mem_skipWhiteSpaces s h
  unfold nextToken at he ⊢
  cases hmatch : skipWhiteSpaces s with
  | nil => rfl
  | cons c rest =>
    rw [hmatch] at hsk he
    have hcnul : c ≠ nul := fun hc => hsk (hc ▸ List.mem_cons_self _ _)
    replace he : (scanToken c rest).1.type = .eof := he
    show (scanToken c rest).2 = []
    unfold scanToken at he ⊢
    split_ifs at he ⊢

/-- C7 amended: for every source string that does not contain the NUL
character, once the tokenizer has returned an END token every subsequent
`NextToken` call again returns an END token with an empty literal (a NUL
byte inside the input also produces an END token, after which scanning
resumes, so the restriction is necessary). -/
theorem C7_amended_eof_idempotent (s : List Char) (h : nul ∉ s)
    (he : (nextToken s).1.type = .eof) (n : Nat) :
    (nextToken (lexAdvance^[n] ((nextToken s).2))).1 = ⟨.eof, []⟩ := by
  rw [nextToken_eof_rest s h he, Function.iterate_fixed (rfl : lexAdvance [] = [])]
  rfl

theorem C7_amended_eof_idempotent_witness :
    (nextToken (lexAdvance^[2] ((nextToken (chars (" "))).2))).1 =
      ⟨TokenType.eof, []⟩ :=
  C7_amended_eof_idempotent (chars (" ")) (by decide) (by decide) 2

/-- C7 as stated is false: on the source `"\x001"` (a NUL byte followed by
a digit) the first `NextToken` call returns an END token, and the next
call returns a NUMBER token, not END. -/
theorem C7_counterexample :
    ((nextToken [nul, '1']).1.type = .eof)
    ∧ ((nextToken ((nextToken [nul, '1']).2)).1 = ⟨TokenType.number, ['1']⟩) := by
  exact ⟨by decide, by decide⟩

/-- C5: compilation splits on `.` and errs whenever the split does not have
exactly four components; `"192.168.1"` fails with the structural error and
`"192.168.1.256"` fails with the error naming the offending component. -/
theorem C5_compile_errors :
    (∀ s : List Char, (splitOnDot s).length ≠ 4 →
      ipexprParse s = .error ("invalid ip expression: " ++ String.mk s))
    ∧ (ipexprParse (chars ("192.168.1")) =
        .error ("invalid ip expression: 192.168.1"))
    ∧ (ipexprParse (chars ("192.168.1.256")) =
        .error ("invalid octet format in 256")) := by
  refine ⟨?_, by rfl, by rfl⟩
  intro s h
  simp only [ipexprParse]
  rw [if_neg h]

theorem C5_compile_errors_witness :
    ipexprParse (chars ("1.2")) =
      .error ("invalid ip expression: " ++ String.mk (chars ("1.2"))) :=
  C5_compile_errors.1 (chars ("1.2")) (by decide)

/-! Address parsing facts for C6 and C10. -/

theorem parseUint8_isSome (cs : List Char) :
    (parseUint8 cs).isSome = true ↔
      cs ≠ [] ∧ cs.all isDigit = true ∧ digitsToNat cs ≤ 255 := by
  unfold parseUint8
  split_ifs with h1 h2
  · simp [h1, h2]
  · simp only [Option.isSome_none, Bool.false_eq_true, false_iff, not_and]
    intro _ _ h3
    exact absurd h3 h2
  · simp only [Option.isSome_none, Bool.false_eq_true, false_iff, not_and]
    intro ha hb _
    exact absurd ⟨ha, hb⟩ h1

theorem parseUintAll_isSome (ps : List (List Char)) :
    (parseUintAll ps).isSome = true ↔ ∀ p ∈ ps, (parseUint8 p).isSome = true := by
  induction ps with
  | nil => simp [parseUintAll]
  | cons cs rest ih =>
    unfold parseUintAll
    cases h : parseUint8 cs with
    | none => simp [h]
    | some n =>
      cases h2 : parseUintAll rest with
      | none => simp [h, h2, ← ih]
      | some ns => simp [h, h2, ← ih]

theorem ipParse_isSome_iff (s : List Char) :
    (ipParse s).isSome = true ↔ wellFormedAddr s := by
  unfold ipParse wellFormedAddr
  split_ifs with h
  · rw [parseUintAll_isSome]
    simp only [h, true_and]
    constructor
    · intro hall p hp
      exact (parseUint8_isSome p).mp (hall p hp)
    · intro hall p hp
      exact (parseUint8_isSome p).mpr (hall p hp)
  · simp [h]

/-- C6: `Matches` errs exactly on malformed address strings (wrong
component count, non-numeric, or out-of-range octet), independently of
the pattern; on a well-formed address it returns no error and is true
exactly when every parsed octet byte is a member of the corresponding
octet set. -/
theorem C6_matches_error_iff_malformed :
    (∀ (ie : IPExpr) (s : List Char), ipMatches ie s = none ↔ ¬ wellFormedAddr s)
    ∧ (∀ (o1 o2 o3 o4 : OctetBits) (s : List Char) (a b c d : Nat),
        ipParse s = some [a, b, c, d] →
        ipMatches [o1, o2, o3, o4] s =
          some (bitsTest o1 a && (bitsTest o2 b && (bitsTest o3 c && bitsTest o4 d)))) := by
  constructor
  · intro ie s
    rw [← ipParse_isSome_iff]
    unfold ipMatches
    cases h : ipParse s <;> simp [h]
  · intro o1 o2 o3 o4 s a b c d h
    unfold ipMatches
    rw [h]
    rcases h1 : bitsTest o1 a <;> rcases h2 : bitsTest o2 b <;>
      rcases h3 : bitsTest o3 c <;> rcases h4 : bitsTest o4 d <;>
      simp [matchesBytes, h1, h2, h3, h4]

theorem C6_matches_error_iff_malformed_witness :
    ipMatches [AllSet, AllSet, AllSet, AllSet] (chars ("1.2.3.4")) =
      some (bitsTest AllSet 1 &&
        (bitsTest AllSet 2 && (bitsTest AllSet 3 && bitsTest AllSet 4))) :=
  C6_matches_error_iff_malformed.2 AllSet AllSet AllSet AllSet
    (chars ("1.2.3.4")) 1 2 3 4 (by rfl)

/-! Split lemmas for C10. -/

theorem dot_not_mem_of_all_digits (cs : List Char) (h : cs.all isDigit = true) :
    '.' ∉ cs := by
  intro hm
  exact absurd (List.all_eq_true.mp h _ hm) (by decide)

theorem splitOnDot_no_dot (cs : List Char) (h : '.' ∉ cs) :
    splitOnDot cs = [cs] := by
  induction cs with
  | nil => rfl
  | cons c rest ih =>
    have hc : c ≠ '.' := fun hc => h (hc ▸ List.mem_cons_self _ _)
    have h' : '.' ∉ rest := fun hm => h (List.mem_cons_of_mem _ hm)
    simp only [splitOnDot, if_neg hc, ih h']

theorem splitOnDot_append (xs rest : List Char) (h : '.' ∉ xs) :
    splitOnDot (xs ++ '.' :: rest) = xs :: splitOnDot rest := by
  induction xs with
  | nil => simp [splitOnDot]
  | cons c xs ih =>
    have hc : c ≠ '.' := fun hc => h (hc ▸ List.mem_cons_self _ _)
    have h' : '.' ∉ xs := fun hm => h (List.mem_cons_of_mem _ hm)
    simp only [List.cons_append, splitOnDot, if_neg hc, List.append_eq, ih h']

theorem parseUint8_eq_some (cs : List Char) (h1 : cs ≠ [])
    (h2 : cs.all isDigit = true) (h3 : digitsToNat cs ≤ 255) :
    parseUint8 cs = some (digitsToNat cs) := by
  unfold parseUint8
  rw [if_pos ⟨h1, h2⟩, if_pos h3]

/-- C10: the literal address parser accepts leading zeros — every address
whose four components are non-empty digit runs with value at most 255
parses to those decimal values — so `"192.168.001.001"` behaves exactly
like `"192.168.1.1"` under every pattern's `Matches`. -/
theorem C10_leading_zeros :
    (∀ p1 p2 p3 p4 : List Char,
      p1 ≠ [] → p1.all isDigit = true → digitsToNat p1 ≤ 255 →
      p2 ≠ [] → p2.all isDigit = true → digitsToNat p2 ≤ 255 →
      p3 ≠ [] → p3.all isDigit = true → digitsToNat p3 ≤ 255 →
      p4 ≠ [] → p4.all isDigit = true → digitsToNat p4 ≤ 255 →
      ipParse (p1 ++ ('.' :: (p2 ++ ('.' :: (p3 ++ ('.' :: p4)))))) =
        some [digitsToNat p1, digitsToNat p2, digitsToNat p3, digitsToNat p4])
    ∧ (∀ ie : IPExpr,
        ipMatches ie (chars ("192.168.001.001")) =
          ipMatches ie (chars ("192.168.1.1"))) := by
  constructor
  · intro p1 p2 p3 p4 h1a h1b h1c h2a h2b h2c h3a h3b h3c h4a h4b h4c
    have nd1 := dot_not_mem_of_all_digits p1 h1b
    have nd2 := dot_not_mem_of_all_digits p2 h2b
    have nd3 := dot_not_mem_of_all_digits p3 h3b
    have nd4 := dot_not_mem_of_all_digits p4 h4b
    unfold ipParse
    rw [splitOnDot_append _ _ nd1, splitOnDot_append _ _ nd2,
      splitOnDot_append _ _ nd3, splitOnDot_no_dot _ nd4]
    simp [parseUintAll,
      parseUint8_eq_some p1 h1a h1b h1c, parseUint8_eq_some p2 h2a h2b h2c,
      parseUint8_eq_some p3 h3a h3b h3c, parseUint8_eq_some p4 h4a h4b h4c]
  · intro ie
    rfl

theorem C10_leading_zeros_witness :
    ipParse (['0', '0', '7'] ++ ('.' :: (['1'] ++ ('.' :: (['2'] ++ ('.' :: ['3'])))))) =
      some [digitsToNat ['0', '0', '7'], digitsToNat ['1'], digitsToNat ['2'],
        digitsToNat ['3']] :=
  C10_leading_zeros.1 ['0', '0', '7'] ['1'] ['2'] ['3'] (by decide) (by decide)
    (by decide) (by decide) (by decide) (by decide) (by decide) (by decide)
    (by decide) (by decide) (by decide) (by decide)

end Ippy
